import Mathlib

/-!
Verification model of `eml-extractor.py`.

The directory tree walking, CLI and progress rendering are external; the
model covers `file_md5`, `existing_file_md5`, `make_unique_filename`,
`extract_attachments_from_file` and `extract_and_save_attachments`.

Modelling conventions:
* file contents are byte lists (`List Nat`);
* the target directory is an association list from file name to content,
  mirroring the flat output directory (`Dir`);
* `hashlib.md5` is modelled by an abstract digest function
  `md5fun : List Nat → String` together with the accumulating update state
  (`Md5State`), reflecting hashlib's contract that feeding chunks one by
  one digests their concatenation;
* Python's `f"{base}_{counter}{extension}"` is modelled by `cand`, with the
  decimal numeral written out by `natStr`;
* the `while True` search loop of `make_unique_filename` is modelled by a
  fuel-indexed recursion `searchLoop`; the fuel `dir.length + 1` is proved
  sufficient (the loop always exits within it).
-/

namespace EmlExtractor

/-- Fuelled worker for `natDigits`; any fuel above the number itself is
enough, since the number shrinks at every recursive step. -/
def natDigitsGo : Nat → Nat → List Char
  | 0, _ => []
  | fuel + 1, n =>
      if n < 10 then [Nat.digitChar n]
      else natDigitsGo fuel (n / 10) ++ [Nat.digitChar (n % 10)]

/-- Decimal digits of a natural number, most significant first
(the characters Python's `f"{n}"` produces). -/
def natDigits (n : Nat) : List Char :=
  natDigitsGo (n + 1) n

/-- Decimal numeral of a natural number, as produced by the f-string. -/
def natStr (n : Nat) : String :=
  ⟨natDigits n⟩

/-- Index of the last '.' in a character list, if any. -/
def lastDotIdx (cs : List Char) : Option Nat :=
  match cs.reverse.findIdx? (· = '.') with
  | none => none
  | some j => some (cs.length - 1 - j)

/-- Model of `os.path.splitext` for plain file names (no path separator):
split at the last dot, unless every character before it is a dot. -/
def splitext (s : String) : String × String :=
  match lastDotIdx s.data with
  | none => (s, "")
  | some i =>
      if (s.data.take i).all (· = '.') then (s, "")
      else (⟨s.data.take i⟩, ⟨s.data.drop i⟩)

/-- The flat target directory: file name ↦ content bytes. -/
abbrev Dir := List (String × List Nat)

/-- Content of the file at `name`, if it exists (`os.path.exists` +
reading the file). -/
def lookupFile : Dir → String → Option (List Nat)
  | [], _ => none
  | (k, v) :: rest, name => if k = name then some v else lookupFile rest name

/-- Writing `data` to `name` in the target directory
(`open(save_path, 'wb')` followed by `write`): replaces the content if the
name exists, otherwise creates the file. -/
def writeFile : Dir → String → List Nat → Dir
  | [], name, data => [(name, data)]
  | (k, v) :: rest, name, data =>
      if k = name then (k, data) :: rest
      else (k, v) :: writeFile rest name data

/-- `file_md5(file_data)`: digest of an in-memory byte buffer. -/
def file_md5 (md5fun : List Nat → String) (file_data : List Nat) : String :=
  md5fun file_data

/-- Accumulating state of a `hashlib.md5()` object: per hashlib's contract,
successive `update` calls digest the concatenation of all data fed so far. -/
structure Md5State where
  data : List Nat

/-- `hash_md5.update(chunk)`. -/
def md5_update (st : Md5State) (chunk : List Nat) : Md5State :=
  ⟨st.data ++ chunk⟩

/-- `hash_md5.hexdigest()`. -/
def hexdigest (md5fun : List Nat → String) (st : Md5State) : String :=
  md5fun st.data

/-- Fuelled worker for `readChunks`; any fuel above the content length is
enough, since each read consumes at least one byte. -/
def readChunksGo : Nat → List Nat → List (List Nat)
  | 0, _ => []
  | fuel + 1, l =>
      if l = [] then []
      else l.take 4096 :: readChunksGo fuel (l.drop 4096)

/-- The chunks produced by `iter(lambda: f.read(4096), b"")`: successive
4096-byte reads until the file is exhausted. -/
def readChunks (l : List Nat) : List (List Nat) :=
  readChunksGo (l.length + 1) l

/-- `existing_file_md5(file_path)`: streamed digest of an on-disk file,
feeding the hash object one bounded chunk at a time. -/
def existing_file_md5 (md5fun : List Nat → String) (content : List Nat) : String :=
  hexdigest md5fun ((readChunks content).foldl md5_update ⟨[]⟩)

/-- The candidate name `f"{base}_{counter}{extension}"`. -/
def cand (base extension : String) (counter : Nat) : String :=
  base ++ "_" ++ natStr counter ++ extension

/-- The `break` condition of the search loop: the candidate for `counter`
does not exist, or its on-disk digest equals `new_md5`. -/
def hitsExit (md5fun : List Nat → String) (dir : Dir) (base extension new_md5 : String)
    (counter : Nat) : Bool :=
  match lookupFile dir (cand base extension counter) with
  | none => true
  | some c => existing_file_md5 md5fun c == new_md5

/-- The `while True` loop of `make_unique_filename`, indexed by fuel.
On exit it returns the candidate name at which it broke (in both break
cases); `none` means the fuel ran out, which `searchLoop_spec`
below proves never happens at fuel `dir.length + 1`. -/
def searchLoop (md5fun : List Nat → String) (dir : Dir) (base extension new_md5 : String) :
    Nat → Nat → Option String
  | 0, _ => none
  | fuel + 1, counter =>
      if hitsExit md5fun dir base extension new_md5 counter then
        some (cand base extension counter)
      else
        searchLoop md5fun dir base extension new_md5 fuel (counter + 1)

/-- `make_unique_filename(target_dir, filename, file_data)`: returns
`none` for Python's `None` (identical file already present under the
desired name), otherwise `some` of the name to write. -/
def make_unique_filename (md5fun : List Nat → String) (dir : Dir) (filename : String)
    (file_data : List Nat) : Option String :=
  let be := splitext filename
  match lookupFile dir filename with
  | some c =>
      let new_md5 := file_md5 md5fun file_data
      if existing_file_md5 md5fun c = new_md5 then none
      else searchLoop md5fun dir be.1 be.2 new_md5 (dir.length + 1) 1
  | none => some filename

/-- One MIME part of a parsed message: content disposition, file name
(`None`-able on both) and decoded payload. -/
structure Part where
  disposition : Option String
  filename : Option String
  payload : List Nat
deriving DecidableEq

/-- The shared counters `stats = {'processed': …, 'extracted': …}`. -/
structure Stats where
  processed : Nat
  extracted : Nat
deriving DecidableEq

/-- The body of the `for part in msg.walk()` loop for one part: on an
attachment part with a truthy (non-empty) file name, allocate a name and,
unless the allocator returned `None`, write the payload and bump the
`extracted` counter. -/
def processPart (md5fun : List Nat → String) (st : Dir × Stats) (part : Part) : Dir × Stats :=
  if part.disposition = some "attachment" then
    match part.filename with
    | some fname =>
        if fname = "" then st
        else
          let file_data := part.payload
          match make_unique_filename md5fun st.1 fname file_data with
          | some uname => (writeFile st.1 uname file_data,
              { st.2 with extracted := st.2.extracted + 1 })
          | none => st
    | none => st
  else st

/-- `extract_attachments_from_file`: `none` models a message whose parsing
raises (the exception propagates before any counter is touched, so the
state is returned unchanged and `processed` is not bumped); `some parts`
models a successfully parsed message, whose parts are processed in document
order and which bumps `processed` at the end. -/
def extract_attachments_from_file (md5fun : List Nat → String) (msg : Option (List Part))
    (st : Dir × Stats) : Dir × Stats :=
  match msg with
  | none => st
  | some parts =>
      let st2 := parts.foldl (processPart md5fun) st
      (st2.1, { st2.2 with processed := st2.2.processed + 1 })

/-- `extract_and_save_attachments`: fresh counters, then every message file
processed into the (possibly non-empty) target directory. The fold models
one serialised schedule of the thread pool. -/
def extract_and_save_attachments (md5fun : List Nat → String)
    (files : List (Option (List Part))) (dir : Dir) : Dir × Stats :=
  files.foldl (fun st f => extract_attachments_from_file md5fun f st) (dir, ⟨0, 0⟩)

/-- One thread-pool worker holding a single attachment, for reasoning about
interleavings of the unlocked check-then-write sequence: `decided` records
the result of its `make_unique_filename` call once that has run, `written`
whether the write step has run. -/
structure Worker where
  filename : String
  payload : List Nat
  decided : Option (Option String)
  written : Bool
deriving DecidableEq

/-- One scheduler step of a worker: first the allocation decision (a read
of the shared directory), then the guarded write plus counter increment —
the two halves of `extract_attachments_from_file`'s per-attachment body,
which the code does not make atomic. -/
def stepWorker (md5fun : List Nat → String) (st : Dir × Stats) (w : Worker) :
    (Dir × Stats) × Worker :=
  match w.decided with
  | none =>
      (st, { w with decided := some (make_unique_filename md5fun st.1 w.filename w.payload) })
  | some r =>
      if w.written then (st, w)
      else
        match r with
        | some uname =>
            ((writeFile st.1 uname w.payload,
              { st.2 with extracted := st.2.extracted + 1 }),
             { w with written := true })
        | none => (st, { w with written := true })

/-- Run the workers under an explicit schedule (a list of worker indices,
each occurrence advancing that worker by one step). -/
def runSchedule (md5fun : List Nat → String) :
    List Nat → (Dir × Stats) → List Worker → (Dir × Stats) × List Worker
  | [], st, ws => (st, ws)
  | i :: rest, st, ws =>
      match ws.get? i with
      | none => runSchedule md5fun rest st ws
      | some w =>
          let r := stepWorker md5fun st w
          runSchedule md5fun rest r.1 (ws.set i r.2)

/-- A concrete injective stand-in digest used to evaluate the model on
explicit inputs (the code treats the digest as a black box). -/
def md5Test (l : List Nat) : String :=
  ⟨l.foldr (fun b cs => Nat.digitChar b :: ';' :: cs) []⟩

/-! ### Properties of the decimal numeral -/

/-- The fuelled digit worker is fuel-irrelevant above the number. -/
theorem natDigitsGo_congr (n : Nat) : ∀ f g, n < f → n < g →
    natDigitsGo f n = natDigitsGo g n := by
  induction n using Nat.strong_induction_on with
  | _ n ih =>
    intro f g hf hg
    match f, g, hf, hg with
    | f + 1, g + 1, hf, hg =>
      simp only [natDigitsGo]
      by_cases h : n < 10
      · simp [h]
      · have hd : n / 10 < n := Nat.div_lt_self (by omega) (by omega)
        simp only [h, if_false]
        rw [ih (n / 10) hd f g (by omega) (by omega)]

/-- Recursion equation for `natDigits`. -/
theorem natDigits_unfold (n : Nat) :
    natDigits n = if n < 10 then [Nat.digitChar n]
      else natDigits (n / 10) ++ [Nat.digitChar (n % 10)] := by
  by_cases h : n < 10
  · simp [natDigits, natDigitsGo, h]
  · have hd : n / 10 < n := Nat.div_lt_self (by omega) (by omega)
    simp only [natDigits, h, if_false]
    conv_lhs => rw [natDigitsGo]
    simp only [h, if_false]
    rw [natDigitsGo_congr (n / 10) n (n / 10 + 1) (by omega) (by omega)]

theorem natDigits_ne_nil (n : Nat) : natDigits n ≠ [] := by
  rw [natDigits_unfold]
  by_cases h : n < 10 <;> simp [h]

theorem digitChar_inj : ∀ a < 10, ∀ b < 10, Nat.digitChar a = Nat.digitChar b → a = b := by
  decide

/-- Decimal digit lists of distinct numbers are distinct. -/
theorem natDigits_inj (n : Nat) : ∀ m, natDigits n = natDigits m → n = m := by
  induction n using Nat.strong_induction_on with
  | _ n ih =>
    intro m h
    rw [natDigits_unfold n, natDigits_unfold m] at h
    by_cases hn : n < 10 <;> by_cases hm : m < 10
    · simp only [hn, hm, if_true, List.cons.injEq] at h
      exact digitChar_inj n hn m hm h.1
    · simp only [hn, hm, if_true, if_false] at h
      have hlen := congrArg List.length h
      simp [List.length_append] at hlen
      exact absurd hlen (natDigits_ne_nil _)
    · simp only [hn, hm, if_true, if_false] at h
      have hlen := congrArg List.length h
      simp [List.length_append] at hlen
      exact absurd hlen (natDigits_ne_nil _)
    · simp only [hn, hm, if_false] at h
      have hp := List.append_inj' h rfl
      have h1 : n / 10 = m / 10 :=
        ih (n / 10) (Nat.div_lt_self (by omega) (by omega)) (m / 10) hp.1
      have h2 : n % 10 = m % 10 := by
        have h3 := hp.2
        simp only [List.cons.injEq] at h3
        exact digitChar_inj (n % 10) (by omega) (m % 10) (by omega) h3.1
      omega

theorem natStr_inj (n m : Nat) (h : natStr n = natStr m) : n = m :=
  natDigits_inj n m (congrArg String.data h)

/-! ### Candidate names -/

theorem cand_data (b e : String) (n : Nat) :
    (cand b e n).data = b.data ++ '_' :: (natDigits n ++ e.data) := by
  simp [cand, natStr, String.data_append]

theorem cand_inj (b e : String) (n m : Nat) (h : cand b e n = cand b e m) : n = m := by
  have hd := congrArg String.data h
  rw [cand_data, cand_data] at hd
  have h1 := List.append_cancel_left hd
  simp only [List.cons.injEq, true_and] at h1
  exact natDigits_inj n m (List.append_cancel_right h1)

theorem splitext_join (s : String) : (splitext s).1 ++ (splitext s).2 = s := by
  unfold splitext
  cases hfind : lastDotIdx s.data with
  | none => simp
  | some i =>
    by_cases hall : (s.data.take i).all (· = '.')
    · simp [hall]
    · simp only [hall, if_false]
      show (⟨s.data.take i ++ s.data.drop i⟩ : String) = s
      rw [List.take_append_drop]

/-! ### Directory lookups and writes -/

theorem lookupFile_ne_none_mem :
    ∀ (d : Dir) (s : String), lookupFile d s ≠ none → s ∈ d.map Prod.fst := by
  intro d
  induction d with
  | nil => intro s h; exact absurd rfl h
  | cons p rest ih =>
    intro s h
    simp only [lookupFile] at h
    by_cases hk : p.1 = s
    · simp [hk]
    · simp only [hk, if_false] at h
      simp [ih s h]

theorem lookupFile_mem :
    ∀ (d : Dir) (s : String) (v : List Nat), lookupFile d s = some v → (s, v) ∈ d := by
  intro d
  induction d with
  | nil => intro s v h; exact absurd h (by simp [lookupFile])
  | cons p rest ih =>
    intro s v h
    obtain ⟨k, w⟩ := p
    simp only [lookupFile] at h
    by_cases hk : k = s
    · simp only [hk, if_true] at h
      subst hk
      cases h
      exact List.mem_cons_self _ _
    · simp only [hk, if_false] at h
      exact List.mem_cons_of_mem _ (ih s v h)

theorem writeFile_append_of_none :
    ∀ (d : Dir) (n : String) (x : List Nat), lookupFile d n = none →
      writeFile d n x = d ++ [(n, x)] := by
  intro d
  induction d with
  | nil => intro n x _; rfl
  | cons p rest ih =>
    intro n x h
    simp only [lookupFile] at h
    by_cases hk : p.1 = n
    · simp [hk] at h
    · simp only [hk, if_false] at h
      simp only [writeFile, hk, if_false]
      rw [ih n x h]
      rfl

theorem lookupFile_writeFile_self :
    ∀ (d : Dir) (n : String) (x : List Nat), lookupFile (writeFile d n x) n = some x := by
  intro d
  induction d with
  | nil => intro n x; simp [writeFile, lookupFile]
  | cons p rest ih =>
    intro n x
    simp only [writeFile]
    by_cases hk : p.1 = n
    · simp [hk, lookupFile]
    · simp [hk, lookupFile, ih]

theorem lookupFile_writeFile_ne :
    ∀ (d : Dir) (n m : String) (x : List Nat), m ≠ n →
      lookupFile (writeFile d n x) m = lookupFile d m := by
  intro d
  induction d with
  | nil =>
    intro n m x h
    have hm : ¬ (n = m) := fun hh => h hh.symm
    simp [writeFile, lookupFile, hm]
  | cons p rest ih =>
    intro n m x h
    simp only [writeFile]
    by_cases hk : p.1 = n
    · subst hk
      have hm : ¬ (p.1 = m) := fun hh => h hh.symm
      simp [lookupFile, hm]
    · simp only [hk, if_false, lookupFile]
      by_cases hm : p.1 = m
      · simp [hm]
      · simp [hm, ih n m x h]

/-! ### Termination of the numbered-suffix search -/

theorem exists_free (dir : Dir) (b e : String) :
    ∃ n, 1 ≤ n ∧ n ≤ dir.length + 1 ∧ lookupFile dir (cand b e n) = none := by
  by_contra hno
  push_neg at hno
  have hmem : ∀ n ∈ Finset.Icc 1 (dir.length + 1),
      cand b e n ∈ (dir.map Prod.fst).toFinset := by
    intro n hn
    rw [Finset.mem_Icc] at hn
    rw [List.mem_toFinset]
    exact lookupFile_ne_none_mem dir _ (hno n hn.1 hn.2)
  have hinj : Set.InjOn (cand b e) (Finset.Icc 1 (dir.length + 1)) := by
    intro x _ y _ hxy
    exact cand_inj b e x y hxy
  have hcard := Finset.card_le_card_of_injOn (cand b e) hmem hinj
  rw [Nat.card_Icc] at hcard
  have h2 : (dir.map Prod.fst).toFinset.card ≤ (dir.map Prod.fst).length :=
    List.toFinset_card_le _
  rw [List.length_map] at h2
  omega

theorem hitsExit_of_none (md5fun : List Nat → String) (dir : Dir) (b e d : String) (n : Nat)
    (h : lookupFile dir (cand b e n) = none) : hitsExit md5fun dir b e d n = true := by
  simp [hitsExit, h]

theorem exists_of_hitsExit_false (md5fun : List Nat → String) (dir : Dir) (b e d : String)
    (n : Nat) (h : hitsExit md5fun dir b e d n = false) :
    ∃ c, lookupFile dir (cand b e n) = some c ∧ existing_file_md5 md5fun c ≠ d := by
  unfold hitsExit at h
  cases hl : lookupFile dir (cand b e n) with
  | none => rw [hl] at h; simp at h
  | some c =>
    rw [hl] at h
    refine ⟨c, rfl, ?_⟩
    simpa using h

theorem searchLoop_eq_of_least (md5fun : List Nat → String) (dir : Dir) (b e d : String) :
    ∀ (fuel counter n : Nat), counter ≤ n → n < counter + fuel →
      hitsExit md5fun dir b e d n = true →
      (∀ m, counter ≤ m → m < n → hitsExit md5fun dir b e d m = false) →
      searchLoop md5fun dir b e d fuel counter = some (cand b e n) := by
  intro fuel
  induction fuel with
  | zero => intro counter n h1 h2 _ _; omega
  | succ f ih =>
    intro counter n h1 h2 hx hmin
    simp only [searchLoop]
    by_cases hc : hitsExit md5fun dir b e d counter = true
    · have hn : n = counter := by
        rcases Nat.lt_or_ge counter n with hlt | hge
        · have hfalse := hmin counter (Nat.le_refl _) hlt
          rw [hc] at hfalse
          exact absurd hfalse (by simp)
        · omega
      simp [hc, hn]
    · have hne : counter ≠ n := by
        intro hh
        rw [hh] at hc
        exact hc hx
      simp only [hc, if_false]
      exact ih (counter + 1) n (by omega) (by omega) hx
        (fun m hm1 hm2 => hmin m (by omega) hm2)

/-- The search loop at fuel `dir.length + 1` starting from 1 returns the
candidate of the least exit point. -/
theorem searchLoop_spec (md5fun : List Nat → String) (dir : Dir) (b e d : String) :
    ∃ n, 1 ≤ n ∧ n ≤ dir.length + 1 ∧ hitsExit md5fun dir b e d n = true ∧
      (∀ m, 1 ≤ m → m < n → hitsExit md5fun dir b e d m = false) ∧
      searchLoop md5fun dir b e d (dir.length + 1) 1 = some (cand b e n) := by
  obtain ⟨k, hk1, hk2, hk3⟩ := exists_free dir b e
  have hex : ∃ n, 1 ≤ n ∧ hitsExit md5fun dir b e d n = true :=
    ⟨k, hk1, hitsExit_of_none md5fun dir b e d k hk3⟩
  refine ⟨Nat.find hex, (Nat.find_spec hex).1, ?_, (Nat.find_spec hex).2, ?_, ?_⟩
  · exact le_trans (Nat.find_min' hex ⟨hk1, hitsExit_of_none md5fun dir b e d k hk3⟩) hk2
  · intro m hm1 hm2
    have h := Nat.find_min hex hm2
    simp only [hm1, true_and] at h
    simpa using h
  · exact searchLoop_eq_of_least md5fun dir b e d (dir.length + 1) 1 (Nat.find hex)
      (Nat.find_spec hex).1
      (by
        have := le_trans (Nat.find_min' hex ⟨hk1, hitsExit_of_none md5fun dir b e d k hk3⟩) hk2
        omega)
      (Nat.find_spec hex).2
      (fun m hm1 hm2 => by
        have h := Nat.find_min hex hm2
        simp only [hm1, true_and] at h
        simpa using h)

/-! ### The streamed digest -/

theorem readChunksGo_congr (k : Nat) :
    ∀ (l : List Nat) (f g : Nat), l.length = k → l.length < f → l.length < g →
    readChunksGo f l = readChunksGo g l := by
  induction k using Nat.strong_induction_on with
  | _ k ih =>
    intro l f g hk hf hg
    match f, g, hf, hg with
    | f + 1, g + 1, hf, hg =>
      simp only [readChunksGo]
      by_cases h : l = []
      · simp [h]
      · have hl : 0 < l.length := List.length_pos.mpr h
        have hd : (l.drop 4096).length < l.length := by
          simp only [List.length_drop]
          omega
        simp only [h, if_false]
        rw [ih (l.drop 4096).length (by omega) (l.drop 4096) f g rfl (by omega) (by omega)]

theorem readChunks_unfold (l : List Nat) :
    readChunks l = if l = [] then []
      else l.take 4096 :: readChunks (l.drop 4096) := by
  by_cases h : l = []
  · simp [readChunks, readChunksGo, h]
  · have hl : 0 < l.length := List.length_pos.mpr h
    have hd : (l.drop 4096).length < l.length := by
      simp only [List.length_drop]
      omega
    simp only [readChunks, h, if_false]
    conv_lhs => rw [readChunksGo]
    simp only [h, if_false]
    rw [readChunksGo_congr (l.drop 4096).length (l.drop 4096) l.length
      ((l.drop 4096).length + 1) rfl (by omega) (by omega)]

theorem readChunks_join (k : Nat) :
    ∀ l : List Nat, l.length = k → (readChunks l).flatten = l := by
  induction k using Nat.strong_induction_on with
  | _ k ih =>
    intro l hk
    rw [readChunks_unfold]
    by_cases h : l = []
    · simp [h]
    · have hl : 0 < l.length := List.length_pos.mpr h
      have hd : (l.drop 4096).length < l.length := by
        simp only [List.length_drop]
        omega
      simp only [h, if_false, List.flatten]
      rw [ih (l.drop 4096).length (by omega) (l.drop 4096) rfl]
      exact List.take_append_drop 4096 l

theorem foldl_md5_update (chunks : List (List Nat)) :
    ∀ acc : List Nat, chunks.foldl md5_update ⟨acc⟩ = ⟨acc ++ chunks.flatten⟩ := by
  induction chunks with
  | nil => intro acc; simp [List.flatten]
  | cons c rest ih =>
    intro acc
    simp only [List.foldl_cons, md5_update, List.flatten]
    rw [ih (acc ++ c)]
    simp [List.append_assoc]

/-! ### Case analysis of `make_unique_filename` -/

theorem make_unique_filename_of_absent (md5fun : List Nat → String) (dir : Dir)
    (filename : String) (file_data : List Nat) (h : lookupFile dir filename = none) :
    make_unique_filename md5fun dir filename file_data = some filename := by
  simp [make_unique_filename, h]

theorem make_unique_filename_of_match (md5fun : List Nat → String) (dir : Dir)
    (filename : String) (file_data c : List Nat) (hc : lookupFile dir filename = some c)
    (heq : existing_file_md5 md5fun c = file_md5 md5fun file_data) :
    make_unique_filename md5fun dir filename file_data = none := by
  simp [make_unique_filename, hc, heq]

theorem make_unique_filename_of_collision (md5fun : List Nat → String) (dir : Dir)
    (filename : String) (file_data c : List Nat) (hc : lookupFile dir filename = some c)
    (hne : existing_file_md5 md5fun c ≠ file_md5 md5fun file_data) :
    make_unique_filename md5fun dir filename file_data
      = searchLoop md5fun dir (splitext filename).1 (splitext filename).2
          (file_md5 md5fun file_data) (dir.length + 1) 1 := by
  simp [make_unique_filename, hc, hne]

/-! ### Counter bookkeeping -/

theorem processPart_processed (md5fun : List Nat → String) (st : Dir × Stats) (part : Part) :
    (processPart md5fun st part).2.processed = st.2.processed := by
  obtain ⟨dp, fn, pl⟩ := part
  by_cases h1 : dp = some "attachment"
  · cases fn with
    | none => simp [processPart, h1]
    | some fname =>
      by_cases h2 : fname = ""
      · simp [processPart, h1, h2]
      · cases h3 : make_unique_filename md5fun st.1 fname pl with
        | none => simp [processPart, h1, h2, h3]
        | some u => simp [processPart, h1, h2, h3]
  · simp [processPart, h1]

theorem foldl_processPart_processed (md5fun : List Nat → String) (parts : List Part) :
    ∀ st : Dir × Stats,
      (parts.foldl (processPart md5fun) st).2.processed = st.2.processed := by
  induction parts with
  | nil => intro st; rfl
  | cons p rest ih =>
    intro st
    simp only [List.foldl_cons]
    rw [ih, processPart_processed]

theorem run_processed_count (md5fun : List Nat → String) :
    ∀ (files : List (Option (List Part))) (st : Dir × Stats),
      (files.foldl (fun st f => extract_attachments_from_file md5fun f st) st).2.processed
        = st.2.processed + files.countP (fun f => f.isSome) := by
  intro files
  induction files with
  | nil => intro st; simp
  | cons f rest ih =>
    intro st
    simp only [List.foldl_cons]
    rw [ih]
    cases f with
    | none => simp [extract_attachments_from_file, List.countP_cons]
    | some parts =>
      simp only [extract_attachments_from_file, List.countP_cons]
      rw [foldl_processPart_processed]
      simp
      omega

/-! ### Claim theorems -/

/-- C7: the streamed per-chunk file digest agrees with the in-memory
digest: for every byte sequence, `existing_file_md5` on a file holding
exactly those bytes equals `file_md5` of the bytes, so the chunked
implementation refines the whole-buffer one. -/
theorem C7_chunked_digest_refines_whole_buffer (md5fun : List Nat → String)
    (content : List Nat) :
    existing_file_md5 md5fun content = file_md5 md5fun content := by
  unfold existing_file_md5 hexdigest file_md5
  rw [foldl_md5_update, readChunks_join content.length content rfl]
  simp

/-- C8: the numbered-suffix search loop terminates for every finite target
directory: some index at or below `dir.length + 1` names a candidate that
is not on disk, and the loop run with that much fuel from counter 1
returns a result. -/
theorem C8_search_loop_terminates (md5fun : List Nat → String) (dir : Dir)
    (base extension new_md5 : String) :
    (∃ n, 1 ≤ n ∧ n ≤ dir.length + 1 ∧
      lookupFile dir (cand base extension n) = none) ∧
    (searchLoop md5fun dir base extension new_md5 (dir.length + 1) 1).isSome = true := by
  refine ⟨exists_free dir base extension, ?_⟩
  obtain ⟨n, _, _, _, _, hres⟩ := searchLoop_spec md5fun dir base extension new_md5
  rw [hres]
  rfl

/-- C1 (code bug): an attachment whose digest equals an existing numbered
variant (while the plain name holds different content) is NOT skipped:
`make_unique_filename` returns the matching variant name, the file is
rewritten and the extracted counter is incremented, contradicting the
script's own header comment that a matching MD5 is not saved again. -/
theorem C1_variant_match_rewritten_not_skipped :
    make_unique_filename md5Test [("a.txt", [1]), ("a_1.txt", [2])] "a.txt" [2]
      = some "a_1.txt" ∧
    processPart md5Test ([("a.txt", [1]), ("a_1.txt", [2])], ⟨0, 0⟩)
        ⟨some "attachment", some "a.txt", [2]⟩
      = ([("a.txt", [1]), ("a_1.txt", [2])], ⟨0, 1⟩) := by
  constructor
  · decide
  · decide

/-- C2 (code bug): two workers holding same-named attachments with distinct
contents, both allocating before either writes, lose a write: the final
directory holds a single file (the second content) while the extracted
counter still reports 2; the fully serialised schedule of the same workers
produces the two files the claim requires. -/
theorem C2_concurrent_lost_write :
    (runSchedule md5Test [0, 1, 0, 1] ([], ⟨0, 0⟩)
        [⟨"report.pdf", [1], none, false⟩, ⟨"report.pdf", [2], none, false⟩]).1
      = ([("report.pdf", [2])], ⟨0, 2⟩) ∧
    (runSchedule md5Test [0, 0, 1, 1] ([], ⟨0, 0⟩)
        [⟨"report.pdf", [1], none, false⟩, ⟨"report.pdf", [2], none, false⟩]).1
      = ([("report.pdf", [1]), ("report_1.pdf", [2])], ⟨0, 2⟩) := by
  constructor
  · decide
  · decide

/-- C3 (code bug): re-running extraction over the same two-attachment input
leaves the directory contents unchanged, but the second run does not detect
the numbered variant as a skip: it rewrites `a_1.txt` and reports
extracted = 1, not 0. -/
theorem C3_second_run_extracted_not_zero :
    extract_and_save_attachments md5Test
        [some [⟨some "attachment", some "a.txt", [1]⟩],
         some [⟨some "attachment", some "a.txt", [2]⟩]] []
      = ([("a.txt", [1]), ("a_1.txt", [2])], ⟨2, 2⟩) ∧
    extract_and_save_attachments md5Test
        [some [⟨some "attachment", some "a.txt", [1]⟩],
         some [⟨some "attachment", some "a.txt", [2]⟩]]
        [("a.txt", [1]), ("a_1.txt", [2])]
      = ([("a.txt", [1]), ("a_1.txt", [2])], ⟨2, 1⟩) := by
  constructor
  · decide
  · decide

/-- C4 (counterexample): a run over a single unparseable message file ends
with `processed = 0`, not 1 — the exception propagates before the
`processed` increment, so the claim that the counter is still incremented
fails. -/
theorem C4_counterexample :
    (extract_and_save_attachments md5Test [none] []).2.processed = 0 ∧
    ¬ (extract_and_save_attachments md5Test [none] []).2.processed = 1 := by
  constructor
  · decide
  · decide

/-- C4 (amended): a message file whose parsing fails contributes nothing —
the run is identical to the run without that file (so no attachments from
it are counted and no other file is affected) and the processed counter
counts exactly the files that parsed, so it is NOT incremented for the
failing file. -/
theorem C4_parse_failure_isolated (md5fun : List Nat → String)
    (xs ys : List (Option (List Part))) (dir : Dir) :
    extract_and_save_attachments md5fun (xs ++ none :: ys) dir
      = extract_and_save_attachments md5fun (xs ++ ys) dir ∧
    (extract_and_save_attachments md5fun (xs ++ none :: ys) dir).2.processed
      = (xs ++ ys).countP (fun f => f.isSome) := by
  have hskip : extract_and_save_attachments md5fun (xs ++ none :: ys) dir
      = extract_and_save_attachments md5fun (xs ++ ys) dir := by
    unfold extract_and_save_attachments
    rw [List.foldl_append, List.foldl_append]
    rfl
  refine ⟨hskip, ?_⟩
  rw [hskip]
  unfold extract_and_save_attachments
  rw [run_processed_count]
  simp

theorem cand_ne_of_short (b e : String) (n : Nat) (s : String)
    (h : s.data.length < b.data.length + 2 + e.data.length) : cand b e n ≠ s := by
  intro he
  have h2 : b.data ++ '_' :: (natDigits n ++ e.data) = s.data := by
    rw [← cand_data]
    exact congrArg String.data he
  have h3 := congrArg List.length h2
  simp only [List.length_append, List.length_cons] at h3
  have hd : 0 < (natDigits n).length := List.length_pos.mpr (natDigits_ne_nil n)
  omega

/-- C5: when the plain name exists with a different digest and every
existing numbered variant also differs in digest, `make_unique_filename`
returns `WriteAs` of the variant with the least index whose candidate name
is absent (every smaller index is occupied), and the subsequent write adds
exactly one new file to the directory. -/
theorem C5_allocates_least_free_slot (md5fun : List Nat → String) (dir : Dir)
    (filename : String) (file_data c : List Nat)
    (hplain : lookupFile dir filename = some c)
    (hpne : existing_file_md5 md5fun c ≠ file_md5 md5fun file_data)
    (hvar : ∀ p ∈ dir,
      (∃ n, 1 ≤ n ∧ p.1 = cand (splitext filename).1 (splitext filename).2 n) →
      existing_file_md5 md5fun p.2 ≠ file_md5 md5fun file_data) :
    ∃ n, 1 ≤ n ∧
      lookupFile dir (cand (splitext filename).1 (splitext filename).2 n) = none ∧
      (∀ m, 1 ≤ m → m < n →
        lookupFile dir (cand (splitext filename).1 (splitext filename).2 m) ≠ none) ∧
      make_unique_filename md5fun dir filename file_data
        = some (cand (splitext filename).1 (splitext filename).2 n) ∧
      writeFile dir (cand (splitext filename).1 (splitext filename).2 n) file_data
        = dir ++ [(cand (splitext filename).1 (splitext filename).2 n, file_data)] := by
  obtain ⟨n, hn1, hn2, hx, hmin, hres⟩ :=
    searchLoop_spec md5fun dir (splitext filename).1 (splitext filename).2
      (file_md5 md5fun file_data)
  have hfree : lookupFile dir (cand (splitext filename).1 (splitext filename).2 n)
      = none := by
    cases hl : lookupFile dir (cand (splitext filename).1 (splitext filename).2 n) with
    | none => rfl
    | some cv =>
      exfalso
      unfold hitsExit at hx
      rw [hl] at hx
      have heq : existing_file_md5 md5fun cv = file_md5 md5fun file_data := by
        simpa using hx
      exact hvar _ (lookupFile_mem dir _ cv hl) ⟨n, hn1, rfl⟩ heq
  refine ⟨n, hn1, hfree, ?_, ?_, ?_⟩
  · intro m hm1 hm2 hnone
    have hm := hmin m hm1 hm2
    rw [hitsExit_of_none md5fun dir _ _ _ m hnone] at hm
    exact absurd hm (by simp)
  · rw [make_unique_filename_of_collision md5fun dir filename file_data c hplain hpne]
    exact hres
  · exact writeFile_append_of_none dir _ file_data hfree

theorem C5_witness :
    ∃ n, 1 ≤ n ∧
      lookupFile [("a.txt", [1]), ("a_1.txt", [2])]
        (cand (splitext "a.txt").1 (splitext "a.txt").2 n) = none ∧
      (∀ m, 1 ≤ m → m < n →
        lookupFile [("a.txt", [1]), ("a_1.txt", [2])]
          (cand (splitext "a.txt").1 (splitext "a.txt").2 m) ≠ none) ∧
      make_unique_filename md5Test [("a.txt", [1]), ("a_1.txt", [2])] "a.txt" [3]
        = some (cand (splitext "a.txt").1 (splitext "a.txt").2 n) ∧
      writeFile [("a.txt", [1]), ("a_1.txt", [2])]
          (cand (splitext "a.txt").1 (splitext "a.txt").2 n) [3]
        = [("a.txt", [1]), ("a_1.txt", [2])]
            ++ [(cand (splitext "a.txt").1 (splitext "a.txt").2 n, [3])] := by
  exact C5_allocates_least_free_slot md5Test [("a.txt", [1]), ("a_1.txt", [2])]
    "a.txt" [3] [1] (by decide) (by decide)
    (by
      intro p hp _
      have hp2 : p = ("a.txt", [1]) ∨ p = ("a_1.txt", [2]) := by simpa using hp
      rcases hp2 with rfl | rfl
      · decide
      · decide)

/-- C6: if the plain `<base><ext>` is absent from the target directory the
allocator returns `WriteAs(<base><ext>)`; if it is present with the same
digest as the new content the allocator returns `Skip` and the extractor
writes nothing and leaves the counters unchanged. -/
theorem C6_plain_name_policy (md5fun : List Nat → String) (dir : Dir) (filename : String)
    (file_data : List Nat) :
    (lookupFile dir filename = none →
      make_unique_filename md5fun dir filename file_data
        = some ((splitext filename).1 ++ (splitext filename).2)) ∧
    (∀ c, lookupFile dir filename = some c →
      existing_file_md5 md5fun c = file_md5 md5fun file_data →
      make_unique_filename md5fun dir filename file_data = none ∧
      ∀ stats : Stats, filename ≠ "" →
        processPart md5fun (dir, stats) ⟨some "attachment", some filename, file_data⟩
          = (dir, stats)) := by
  constructor
  · intro h
    rw [make_unique_filename_of_absent md5fun dir filename file_data h, splitext_join]
  · intro c hc heq
    have hskip := make_unique_filename_of_match md5fun dir filename file_data c hc heq
    refine ⟨hskip, ?_⟩
    intro stats hne
    simp [processPart, hne, hskip]

theorem C6_witness :
    make_unique_filename md5Test [] "a.txt" [1]
      = some ((splitext "a.txt").1 ++ (splitext "a.txt").2) ∧
    make_unique_filename md5Test [("a.txt", [1])] "a.txt" [1] = none ∧
    processPart md5Test ([("a.txt", [1])], ⟨0, 0⟩) ⟨some "attachment", some "a.txt", [1]⟩
      = ([("a.txt", [1])], ⟨0, 0⟩) := by
  refine ⟨(C6_plain_name_policy md5Test [] "a.txt" [1]).1 (by decide), ?_, ?_⟩
  · exact ((C6_plain_name_policy md5Test [("a.txt", [1])] "a.txt" [1]).2 [1]
      (by decide) (by decide)).1
  · exact ((C6_plain_name_policy md5Test [("a.txt", [1])] "a.txt" [1]).2 [1]
      (by decide) (by decide)).2 ⟨0, 0⟩ (by decide)

/-- C9 (implicit): when the plain name is absent the allocator returns the
desired name without consulting the content at all (the result is the same
for any two payloads), so two byte-identical attachments under different
absent names are both written — duplicate detection never crosses
base-name families. -/
theorem C9_dedup_within_name_family_only (md5fun : List Nat → String) :
    (∀ (dir : Dir) (filename : String), lookupFile dir filename = none →
      ∀ d1 d2 : List Nat,
        make_unique_filename md5fun dir filename d1 = some filename ∧
        make_unique_filename md5fun dir filename d1
          = make_unique_filename md5fun dir filename d2) ∧
    (∀ (dir : Dir) (stats : Stats) (f1 f2 : String) (x : List Nat),
      f1 ≠ f2 → f1 ≠ "" → f2 ≠ "" →
      lookupFile dir f1 = none → lookupFile dir f2 = none →
      [(⟨some "attachment", some f1, x⟩ : Part), ⟨some "attachment", some f2, x⟩].foldl
          (processPart md5fun) (dir, stats)
        = (writeFile (writeFile dir f1 x) f2 x,
            { stats with extracted := stats.extracted + 2 }) ∧
      lookupFile (writeFile (writeFile dir f1 x) f2 x) f1 = some x ∧
      lookupFile (writeFile (writeFile dir f1 x) f2 x) f2 = some x) := by
  constructor
  · intro dir filename h d1 d2
    rw [make_unique_filename_of_absent md5fun dir filename d1 h,
      make_unique_filename_of_absent md5fun dir filename d2 h]
    exact ⟨rfl, rfl⟩
  · intro dir stats f1 f2 x hne h1 h2 hl1 hl2
    have hl2b : lookupFile (writeFile dir f1 x) f2 = none := by
      rw [lookupFile_writeFile_ne dir f1 f2 x (Ne.symm hne)]
      exact hl2
    have step1 : processPart md5fun (dir, stats) ⟨some "attachment", some f1, x⟩
        = (writeFile dir f1 x, { stats with extracted := stats.extracted + 1 }) := by
      simp [processPart, h1, make_unique_filename_of_absent md5fun dir f1 x hl1]
    have step2 : processPart md5fun
        (writeFile dir f1 x, { stats with extracted := stats.extracted + 1 })
        ⟨some "attachment", some f2, x⟩
        = (writeFile (writeFile dir f1 x) f2 x,
            { stats with extracted := stats.extracted + 2 }) := by
      simp [processPart, h2, make_unique_filename_of_absent md5fun _ f2 x hl2b]
    refine ⟨?_, ?_, ?_⟩
    · simp only [List.foldl_cons, List.foldl_nil, step1, step2]
    · rw [lookupFile_writeFile_ne _ f2 f1 x hne]
      exact lookupFile_writeFile_self dir f1 x
    · exact lookupFile_writeFile_self _ f2 x

theorem C9_witness :
    make_unique_filename md5Test [] "x.txt" [7] = some "x.txt" ∧
    [(⟨some "attachment", some "x.txt", [7]⟩ : Part),
      ⟨some "attachment", some "y.txt", [7]⟩].foldl (processPart md5Test) ([], ⟨0, 0⟩)
      = (writeFile (writeFile [] "x.txt" [7]) "y.txt" [7], ⟨0, 2⟩) ∧
    lookupFile (writeFile (writeFile [] "x.txt" [7]) "y.txt" [7]) "x.txt" = some [7] ∧
    lookupFile (writeFile (writeFile [] "x.txt" [7]) "y.txt" [7]) "y.txt" = some [7] := by
  refine ⟨((C9_dedup_within_name_family_only md5Test).1 [] "x.txt" rfl [7] [7]).1, ?_⟩
  exact (C9_dedup_within_name_family_only md5Test).2 [] ⟨0, 0⟩ "x.txt" "y.txt" [7]
    (by decide) (by decide) (by decide) rfl rfl

/-- C10 (implicit): the allocation outcome is a deterministic function of
the directory state seen through the desired name's base-name family, the
desired name and the content: two directories that agree on the plain name
and on every numbered candidate yield the same outcome (in particular, two
calls on the very same directory state do). -/
theorem C10_allocation_deterministic (md5fun : List Nat → String) (d1 d2 : Dir)
    (filename : String) (file_data : List Nat)
    (hplain : lookupFile d1 filename = lookupFile d2 filename)
    (hfam : ∀ n, lookupFile d1 (cand (splitext filename).1 (splitext filename).2 n)
      = lookupFile d2 (cand (splitext filename).1 (splitext filename).2 n)) :
    make_unique_filename md5fun d1 filename file_data
      = make_unique_filename md5fun d2 filename file_data := by
  have hhits : ∀ (nm : String) (n : Nat),
      hitsExit md5fun d1 (splitext filename).1 (splitext filename).2 nm n
        = hitsExit md5fun d2 (splitext filename).1 (splitext filename).2 nm n := by
    intro nm n
    unfold hitsExit
    rw [hfam n]
  cases h1 : lookupFile d1 filename with
  | none =>
    have h2 : lookupFile d2 filename = none := by rw [← hplain]; exact h1
    rw [make_unique_filename_of_absent md5fun d1 filename file_data h1,
      make_unique_filename_of_absent md5fun d2 filename file_data h2]
  | some c =>
    have h2 : lookupFile d2 filename = some c := by rw [← hplain]; exact h1
    by_cases hd : existing_file_md5 md5fun c = file_md5 md5fun file_data
    · rw [make_unique_filename_of_match md5fun d1 filename file_data c h1 hd,
        make_unique_filename_of_match md5fun d2 filename file_data c h2 hd]
    · rw [make_unique_filename_of_collision md5fun d1 filename file_data c h1 hd,
        make_unique_filename_of_collision md5fun d2 filename file_data c h2 hd]
      obtain ⟨n1, hn11, _, hx1, hmin1, hres1⟩ :=
        searchLoop_spec md5fun d1 (splitext filename).1 (splitext filename).2
          (file_md5 md5fun file_data)
      obtain ⟨n2, hn21, _, hx2, hmin2, hres2⟩ :=
        searchLoop_spec md5fun d2 (splitext filename).1 (splitext filename).2
          (file_md5 md5fun file_data)
      have heqn : n1 = n2 := by
        rcases Nat.lt_trichotomy n1 n2 with h | h | h
        · have hm := hmin2 n1 hn11 h
          rw [← hhits _ n1, hx1] at hm
          exact absurd hm (by simp)
        · exact h
        · have hm := hmin1 n2 hn21 h
          rw [hhits _ n2, hx2] at hm
          exact absurd hm (by simp)
      rw [hres1, hres2, heqn]

theorem C10_witness :
    make_unique_filename md5Test [("a.txt", [1]), ("b.txt", [5])] "a.txt" [2]
      = make_unique_filename md5Test [("a.txt", [1])] "a.txt" [2] := by
  apply C10_allocation_deterministic md5Test _ _ "a.txt" [2] (by decide)
  intro n
  have h1 : cand (splitext "a.txt").1 (splitext "a.txt").2 n ≠ "a.txt" := by
    apply cand_ne_of_short
    decide
  have h2 : cand (splitext "a.txt").1 (splitext "a.txt").2 n ≠ "b.txt" := by
    apply cand_ne_of_short
    decide
  simp [lookupFile, Ne.symm h1, Ne.symm h2]

end EmlExtractor
